import Mathlib

/-!
Verification of the Kurucz stellar-atmosphere dataset pipeline (model.py).

The development shallowly embeds the data-preparation pipeline of the
`KuruczDataset` class: optical-depth integration (`calculate_tau`),
depth-profile padding (`pad_sequence`), normalization statistics
(`setup_normalization`), the normalize/denormalize transforms, sample
assembly (`__getitem__`) and the output inverse transform
(`inverse_transform_outputs`).

Sequences are lists; tensors are nested lists; machine floats are modelled
as exact rationals where the code only does field arithmetic, and as real
numbers where the code applies log10/pow10.  Fallible code (numpy/torch
index errors, empty-list access) is modelled with `Except String`.
-/

namespace Kurucz

/-- Embedding of `KuruczDataset.pad_sequence` (model.py lines 282-289).
If the input already has at least `target` elements the first `target`
are kept, otherwise the last element is repeated; reading the last
element of an empty list raises a Python IndexError, modelled as
`Except.error`. -/
def pad_sequence {α : Type} (values : List α) (target : ℕ) : Except String (List α) :=
  if target ≤ values.length then
    Except.ok (values.take target)
  else
    match values.getLast? with
    | some lastv => Except.ok (values ++ List.replicate (target - values.length) lastv)
    | none => Except.error "IndexError: list index out of range"

/-- The loop `for i in range(1, len(rhox))` of `KuruczDataset.calculate_tau`
(model.py lines 114-121), with the iteration count made explicit as
structural fuel.  `tau` is the mutable array, updated in place via
`List.set`; `abross` is indexed with bounds checking (numpy raises an
IndexError on an out-of-range integer index), while `rhox` indices are
always in range because the loop bound is `len(rhox)`. -/
def tauGo {α : Type} [Field α] (rhox abross : List α) :
    ℕ → ℕ → List α → Except String (List α)
  | 0, _, tau => Except.ok tau
  | steps + 1, i, tau =>
    match abross[i]?, abross[i - 1]? with
    | some ai, some aim =>
      tauGo rhox abross steps (i + 1)
        (tau.set i (tau.getD (i - 1) 0 + (ai + aim) / 2 * (rhox.getD i 0 - rhox.getD (i - 1) 0)))
    | _, _ => Except.error "IndexError: index out of bounds for axis 0"

/-- Embedding of `KuruczDataset.calculate_tau` (model.py lines 95-126):
`tau` starts as `np.zeros_like(rhox)` and the loop runs over
`range(1, len(rhox))`, i.e. `len(rhox) - 1` iterations starting at 1. -/
def calculate_tau {α : Type} [Field α] (rhox abross : List α) : Except String (List α) :=
  tauGo rhox abross (rhox.length - 1) 1 (List.replicate rhox.length (0 : α))

/-- The closed form of the trapezoidal recurrence: the value `tau[i]`
that the loop of `calculate_tau` computes. -/
def tauSpec {α : Type} [Field α] (rhox abross : List α) : ℕ → α
  | 0 => 0
  | i + 1 =>
    tauSpec rhox abross i +
      (abross.getD (i + 1) 0 + abross.getD i 0) / 2 * (rhox.getD (i + 1) 0 - rhox.getD i 0)

/-- The features that are log10-transformed before min-max scaling
(model.py line 189). -/
def log_params : List String := ["teff", "RHOX", "P", "XNE", "ABROSS", "ACCRAD", "TAU"]

/-- One entry of `norm_params` (model.py lines 210-214) in the shape the
pipeline actually produces for its 2-D tensors: scalar min and max. -/
structure SParams where
  min : ℝ
  max : ℝ
  log_scale : Bool

/-- The optional log transform applied before scaling (model.py
lines 247-250): `log10(value + 1e-30)` when `log_scale` is set. -/
noncomputable def transformVal (ls : Bool) (v : ℝ) : ℝ :=
  if ls then Real.logb 10 (v + 1e-30) else v

/-- Elementwise core of `KuruczDataset.normalize` (model.py line 253):
`2 * (transformed - min) / (max - min) - 1`. -/
noncomputable def normalizeVal (p : SParams) (v : ℝ) : ℝ :=
  2 * (transformVal p.log_scale v - p.min) / (p.max - p.min) - 1

/-- Elementwise core of `KuruczDataset.denormalize` (model.py
lines 271-277): reverse the affine map, then `10 ^ x - 1e-30` if the
feature is log-scaled. -/
noncomputable def denormalizeVal (p : SParams) (n : ℝ) : ℝ :=
  let t := (n + 1) / 2 * (p.max - p.min) + p.min
  if p.log_scale then (10 : ℝ) ^ t - 1e-30 else t

/-- Global minimum of a list of reals, as `torch.Tensor.min()` computes it
on a non-empty tensor (the empty case never occurs in the pipeline and is
given the junk value 0). -/
noncomputable def listMin (xs : List ℝ) : ℝ :=
  match xs with
  | [] => 0
  | h :: t => t.foldl min h

/-- Global maximum of a list of reals, as `torch.Tensor.max()`. -/
noncomputable def listMax (xs : List ℝ) : ℝ :=
  match xs with
  | [] => 0
  | h :: t => t.foldl max h

/-- A torch tensor of rank 1, 2 or 3 (the only ranks the pipeline can
ever see: stacked features are rank 2, and the `dim() > 2` branch of
`setup_normalization` would only fire at rank 3 or above). -/
inductive Tensor where
  | t1 (xs : List ℝ)
  | t2 (xs : List (List ℝ))
  | t3 (xs : List (List (List ℝ)))

def Tensor.dim : Tensor → ℕ
  | t1 _ => 1
  | t2 _ => 2
  | t3 _ => 3

/-- Elementwise map over a tensor (torch broadcasted arithmetic). -/
def Tensor.emap (f : ℝ → ℝ) : Tensor → Tensor
  | t1 xs => t1 (xs.map f)
  | t2 xs => t2 (xs.map (fun r => r.map f))
  | t3 xs => t3 (xs.map (fun m => m.map (fun r => r.map f)))

def Tensor.flattenAll : Tensor → List ℝ
  | t1 xs => xs
  | t2 xs => xs.flatten
  | t3 xs => (xs.map List.flatten).flatten

/-- The shape of a min/max statistic: `tensor.min()` yields a scalar,
`tensor.min(dim=0).values` yields a tensor with the leading dimension
removed. -/
inductive Bound where
  | scalar (x : ℝ)
  | vec (xs : List ℝ)
  | mat (xs : List (List ℝ))

def matMin (a b : List (List ℝ)) : List (List ℝ) :=
  List.zipWith (List.zipWith min) a b

def matMax (a b : List (List ℝ)) : List (List ℝ) :=
  List.zipWith (List.zipWith max) a b

/-- `tensor.min(dim=0).values`: reduce away the leading dimension. -/
noncomputable def Tensor.minDim0 : Tensor → Bound
  | t1 xs => Bound.scalar (listMin xs)
  | t2 xs =>
    Bound.vec (match xs with | [] => [] | h :: t => t.foldl (List.zipWith min) h)
  | t3 xs =>
    Bound.mat (match xs with | [] => [] | h :: t => t.foldl matMin h)

/-- `tensor.max(dim=0).values`: reduce away the leading dimension. -/
noncomputable def Tensor.maxDim0 : Tensor → Bound
  | t1 xs => Bound.scalar (listMax xs)
  | t2 xs =>
    Bound.vec (match xs with | [] => [] | h :: t => t.foldl (List.zipWith max) h)
  | t3 xs =>
    Bound.mat (match xs with | [] => [] | h :: t => t.foldl matMax h)

/-- Statistics with shape information preserved. -/
structure BParams where
  min : Bound
  max : Bound
  log_scale : Bool

/-- The per-feature body of `KuruczDataset.setup_normalization` (model.py
lines 191-214): optional log transform, then `min(dim=0)/max(dim=0)` when
`transformed_data.dim() > 2` and global scalar `min()/max()` otherwise. -/
noncomputable def statsFor (name : String) (t : Tensor) : BParams :=
  let ls := log_params.contains name
  let td := if ls then t.emap (fun x => Real.logb 10 (x + 1e-30)) else t
  if 2 < td.dim then
    ⟨td.minDim0, td.maxDim0, ls⟩
  else
    ⟨Bound.scalar (listMin td.flattenAll), Bound.scalar (listMax td.flattenAll), ls⟩

/-- The log transform of `setup_normalization`, specialised to the rank-2
tensors of the original bundle. -/
noncomputable def transform2 (name : String) (data : List (List ℝ)) : List (List ℝ) :=
  if log_params.contains name then
    data.map (fun row => row.map (fun x => Real.logb 10 (x + 1e-30)))
  else data

/-- The scalar statistics `setup_normalization` stores for a rank-2
feature tensor (the branch `transformed_data.dim() > 2` is false at
rank 2, so the global scalar `min()/max()` are taken). -/
noncomputable def fitParams (name : String) (data : List (List ℝ)) : SParams :=
  ⟨listMin (transform2 name data).flatten, listMax (transform2 name data).flatten,
    log_params.contains name⟩

/-- One parsed Kurucz model as returned by the external reader (model.py
lines 74-81 and spec section 6): four stellar scalars, `feh`/`afe`
nullable, and six equal-length depth profiles. -/
structure AtmosphereModel where
  teff : ℝ
  gravity : ℝ
  feh : Option ℝ
  afe : Option ℝ
  RHOX : List ℝ
  T : List ℝ
  P : List ℝ
  XNE : List ℝ
  ABROSS : List ℝ
  ACCRAD : List ℝ

/-- One model after `prepare_data`s per-model work (model.py
lines 146-169): null scalars defaulted to 0, profiles padded to
`max_depth_points`, TAU included. -/
structure Processed where
  teff : ℝ
  gravity : ℝ
  feh : ℝ
  afe : ℝ
  RHOX : List ℝ
  T : List ℝ
  P : List ℝ
  XNE : List ℝ
  ABROSS : List ℝ
  ACCRAD : List ℝ
  TAU : List ℝ

/-- The `self.original` bundle (model.py lines 172-184): scalar features
stacked as (N, 1), sequence features stacked as (N, depth_points). -/
structure Bundle where
  teff : List (List ℝ)
  gravity : List (List ℝ)
  feh : List (List ℝ)
  afe : List (List ℝ)
  RHOX : List (List ℝ)
  T : List (List ℝ)
  P : List (List ℝ)
  XNE : List (List ℝ)
  ABROSS : List (List ℝ)
  ACCRAD : List (List ℝ)
  TAU : List (List ℝ)

/-- The `self.norm_params` mapping, one record per feature. -/
structure ParamsBundle where
  teff : SParams
  gravity : SParams
  feh : SParams
  afe : SParams
  RHOX : SParams
  T : SParams
  P : SParams
  XNE : SParams
  ABROSS : SParams
  ACCRAD : SParams
  TAU : SParams

/-- Sequential processing of a list with fail-fast error propagation (the
`for model in self.models` loop of `prepare_data`, whose exceptions are
not caught). -/
def mapE {α β : Type} (f : α → Except String β) : List α → Except String (List β)
  | [] => Except.ok []
  | a :: t =>
    match f a with
    | Except.error e => Except.error e
    | Except.ok b =>
      match mapE f t with
      | Except.error e => Except.error e
      | Except.ok bs => Except.ok (b :: bs)

/-- The per-model body of `prepare_data` (model.py lines 146-169): pad
the six profiles and TAU to `max_depth_points`, default null `feh`/`afe`
to 0. -/
def processOne (maxD : ℕ) (mt : AtmosphereModel × List ℝ) : Except String Processed := do
  let m := mt.1
  let rhox ← pad_sequence m.RHOX maxD
  let t ← pad_sequence m.T maxD
  let p ← pad_sequence m.P maxD
  let xne ← pad_sequence m.XNE maxD
  let abross ← pad_sequence m.ABROSS maxD
  let accrad ← pad_sequence m.ACCRAD maxD
  let tau ← pad_sequence mt.2 maxD
  pure ⟨m.teff, m.gravity, m.feh.getD 0, m.afe.getD 0, rhox, t, p, xne, abross, accrad, tau⟩

/-- Stacking the processed models into the `self.original` bundle
(model.py lines 172-184): scalars get `unsqueeze(1)`, i.e. become
singleton rows. -/
def buildBundle (ps : List Processed) : Bundle :=
  ⟨ps.map (fun m => [m.teff]), ps.map (fun m => [m.gravity]),
    ps.map (fun m => [m.feh]), ps.map (fun m => [m.afe]),
    ps.map (fun m => m.RHOX), ps.map (fun m => m.T), ps.map (fun m => m.P),
    ps.map (fun m => m.XNE), ps.map (fun m => m.ABROSS), ps.map (fun m => m.ACCRAD),
    ps.map (fun m => m.TAU)⟩

/-- `KuruczDataset.setup_normalization` applied to the bundle: every
feature tensor is rank 2, so each gets the scalar statistics of
`fitParams` (see `statsFor_t2`). -/
noncomputable def setup_normalization (b : Bundle) : ParamsBundle :=
  ⟨fitParams "teff" b.teff, fitParams "gravity" b.gravity, fitParams "feh" b.feh,
    fitParams "afe" b.afe, fitParams "RHOX" b.RHOX, fitParams "T" b.T, fitParams "P" b.P,
    fitParams "XNE" b.XNE, fitParams "ABROSS" b.ABROSS, fitParams "ACCRAD" b.ACCRAD,
    fitParams "TAU" b.TAU⟩

/-- `KuruczDataset.normalize` on a rank-2 tensor: the scalar transform
applied elementwise (scalar statistics broadcast over the tensor). -/
noncomputable def normalize (p : SParams) (data : List (List ℝ)) : List (List ℝ) :=
  data.map (fun row => row.map (normalizeVal p))

/-- `KuruczDataset.denormalize` on a rank-2 tensor. -/
noncomputable def denormalize (p : SParams) (data : List (List ℝ)) : List (List ℝ) :=
  data.map (fun row => row.map (denormalizeVal p))

/-- The dataset state after `__init__`: the original bundle, the fitted
normalization parameters and the normalized feature tensors. -/
structure Dataset where
  original : Bundle
  norm_params : ParamsBundle
  teff : List (List ℝ)
  gravity : List (List ℝ)
  feh : List (List ℝ)
  afe : List (List ℝ)
  RHOX : List (List ℝ)
  T : List (List ℝ)
  P : List (List ℝ)
  XNE : List (List ℝ)
  ABROSS : List (List ℝ)
  ACCRAD : List (List ℝ)
  TAU : List (List ℝ)

/-- `KuruczDataset.__init__` after file reading (model.py lines 72-93):
models whose tau integration raises are skipped, an empty surviving list
is a fatal error, then `prepare_data`, `setup_normalization` and
`normalize_all_data` run in order. -/
noncomputable def assembled (ps : List Processed) : Dataset :=
  let b := buildBundle ps
  let np := setup_normalization b
  ⟨b, np,
    normalize np.teff b.teff, normalize np.gravity b.gravity,
    normalize np.feh b.feh, normalize np.afe b.afe,
    normalize np.RHOX b.RHOX, normalize np.T b.T, normalize np.P b.P,
    normalize np.XNE b.XNE, normalize np.ABROSS b.ABROSS,
    normalize np.ACCRAD b.ACCRAD, normalize np.TAU b.TAU⟩

/-- The files surviving the try/except of `__init__` (model.py
lines 74-81): models whose tau integration raises are skipped. -/
noncomputable def loadedModels (models : List AtmosphereModel) :
    List (AtmosphereModel × List ℝ) :=
  models.filterMap (fun m =>
    match calculate_tau m.RHOX m.ABROSS with
    | Except.ok tau => some (m, tau)
    | Except.error _ => none)

noncomputable def construct (models : List AtmosphereModel) (maxD : ℕ) :
    Except String Dataset :=
  let loaded := loadedModels models
  if loaded.isEmpty then
    Except.error "ValueError: no valid model files found"
  else
    match mapE (processOne maxD) loaded with
    | Except.error e => Except.error e
    | Except.ok ps => Except.ok (assembled ps)

/-- `KuruczDataset.__len__`: the length of the normalized `teff` tensor. -/
def datasetLen (d : Dataset) : ℕ := d.teff.length

/-- `KuruczDataset.__getitem__` (model.py lines 294-333): concatenate the
four normalized stellar scalars, broadcast them over the depth dimension,
append the normalized tau as a fifth column, and stack the six normalized
output profiles column-wise. -/
def getItem (d : Dataset) (idx : ℕ) : List (List ℝ) × List (List ℝ) :=
  let tau := d.TAU.getD idx []
  let sp := d.teff.getD idx [] ++ d.gravity.getD idx [] ++
    d.feh.getD idx [] ++ d.afe.getD idx []
  let input := tau.map (fun tv => sp ++ [tv])
  let rhox := d.RHOX.getD idx []
  let output := (List.range rhox.length).map (fun j =>
    [rhox.getD j 0, (d.T.getD idx []).getD j 0, (d.P.getD idx []).getD j 0,
      (d.XNE.getD idx []).getD j 0, (d.ABROSS.getD idx []).getD j 0,
      (d.ACCRAD.getD idx []).getD j 0])
  (input, output)

/-- The `columns` list of `inverse_transform_outputs` (model.py
line 365): seven names, TAU included. -/
def outputColumns : List String := ["RHOX", "T", "P", "XNE", "ABROSS", "ACCRAD", "TAU"]

/-- Dictionary lookup `self.norm_params[param_name]` for the feature
names that exist as keys. -/
def paramsOf (np : ParamsBundle) (name : String) : SParams :=
  if name = "teff" then np.teff
  else if name = "gravity" then np.gravity
  else if name = "feh" then np.feh
  else if name = "afe" then np.afe
  else if name = "RHOX" then np.RHOX
  else if name = "T" then np.T
  else if name = "P" then np.P
  else if name = "XNE" then np.XNE
  else if name = "ABROSS" then np.ABROSS
  else if name = "ACCRAD" then np.ACCRAD
  else np.TAU

/-- Torch channel slicing `outputs[:, :, i]` on a (batch, depth, c)
tensor: an integer index out of range for the last dimension raises an
IndexError. -/
def sliceChannel (outputs : List (List (List ℝ))) (c i : ℕ) :
    Option (List (List ℝ)) :=
  if i < c then some (outputs.map (fun m => m.map (fun r => r.getD i 0))) else none

/-- The `for i, param_name in enumerate(columns)` loop of
`inverse_transform_outputs` (model.py lines 369-373). -/
noncomputable def itoGo (np : ParamsBundle) (outputs : List (List (List ℝ))) (c : ℕ) :
    List (ℕ × String) → Except String (List (String × List (List ℝ)))
  | [] => Except.ok []
  | (i, name) :: rest =>
    match sliceChannel outputs c i with
    | none => Except.error "IndexError: index out of bounds for dimension 2"
    | some fd =>
      match itoGo np outputs c rest with
      | Except.error e => Except.error e
      | Except.ok r => Except.ok ((name, denormalize (paramsOf np name) fd) :: r)

/-- `KuruczDataset.inverse_transform_outputs` (model.py lines 360-375):
unpack the channel count from the tensor shape, then denormalize each
named channel. -/
noncomputable def inverse_transform_outputs (np : ParamsBundle)
    (outputs : List (List (List ℝ))) :
    Except String (List (String × List (List ℝ))) :=
  let c := ((outputs.headD []).headD []).length
  itoGo np outputs c outputColumns.enum

/-- A concrete normalization-parameters record for evaluating the output
inverse transform. -/
noncomputable def unitParams : SParams := ⟨0, 1, false⟩

/-- A concrete parameter bundle with all eleven features present. -/
noncomputable def demoBundleParams : ParamsBundle :=
  ⟨unitParams, unitParams, unitParams, unitParams, unitParams, unitParams,
    unitParams, unitParams, unitParams, unitParams, unitParams⟩

/-- A concrete two-depth-point atmosphere model for exercising the
construction pipeline. -/
noncomputable def demoModel : AtmosphereModel :=
  ⟨1, 2, none, none, [1, 2], [3, 4], [5, 6], [7, 8], [9, 10], [11, 12]⟩

theorem getD_set_self {α : Type} (l : List α) (i : ℕ) (a d : α) (h : i < l.length) :
    (l.set i a).getD i d = a := by
  induction l generalizing i with
  | nil => simp at h
  | cons x xs ih =>
    cases i with
    | zero => simp [List.set, List.getD]
    | succ n =>
      simp only [List.set, List.getD_cons_succ]
      exact ih n (by simpa using h)

theorem getD_set_ne {α : Type} (l : List α) (i j : ℕ) (a d : α) (h : i ≠ j) :
    (l.set i a).getD j d = l.getD j d := by
  induction l generalizing i j with
  | nil => simp [List.set]
  | cons x xs ih =>
    cases i with
    | zero =>
      cases j with
      | zero => exact absurd rfl h
      | succ m => simp [List.set]
    | succ n =>
      cases j with
      | zero => simp [List.set]
      | succ m =>
        simp only [List.set, List.getD_cons_succ]
        exact ih n m (fun hc => h (by simp [hc]))

/-- Loop invariant for the success case: if `abross` is at least as long
as `rhox`, the loop terminates normally and every cell below the write
frontier holds the trapezoidal closed form. -/
theorem tauGo_ok {α : Type} [Field α] (rhox abross : List α) :
    ∀ (steps i : ℕ) (tau : List α),
      tau.length = rhox.length → 1 ≤ i → steps + i = rhox.length →
      rhox.length ≤ abross.length →
      (∀ j, j < i → tau.getD j 0 = tauSpec rhox abross j) →
      ∃ res, tauGo rhox abross steps i tau = Except.ok res ∧
        res.length = rhox.length ∧
        ∀ j, j < rhox.length → res.getD j 0 = tauSpec rhox abross j := by
  intro steps
  induction steps with
  | zero =>
    intro i tau hlen _ hsum hab hinv
    refine ⟨tau, rfl, hlen, ?_⟩
    intro j hj
    exact hinv j (by omega)
  | succ s ih =>
    intro i tau hlen hi hsum hab hinv
    have hin : i < abross.length := by omega
    have him : i - 1 < abross.length := by omega
    obtain ⟨ai, hai⟩ : ∃ a, abross[i]? = some a := ⟨abross[i], List.getElem?_eq_getElem hin⟩
    obtain ⟨aim, haim⟩ : ∃ a, abross[i - 1]? = some a :=
      ⟨abross[i - 1], List.getElem?_eq_getElem him⟩
    have hai' : abross.getD i 0 = ai := by
      simp [List.getD_eq_getElem?_getD, hai]
    have haim' : abross.getD (i - 1) 0 = aim := by
      simp [List.getD_eq_getElem?_getD, haim]
    simp only [tauGo, hai, haim]
    set t := tau.getD (i - 1) 0 + (ai + aim) / 2 * (rhox.getD i 0 - rhox.getD (i - 1) 0) with ht
    have htv : t = tauSpec rhox abross i := by
      have hprev : tau.getD (i - 1) 0 = tauSpec rhox abross (i - 1) := hinv (i - 1) (by omega)
      obtain ⟨k, hk⟩ : ∃ k, i = k + 1 := ⟨i - 1, by omega⟩
      subst hk
      simp only [Nat.add_sub_cancel] at hprev ht ⊢
      have haim2 : abross.getD k 0 = aim := by simpa using haim'
      rw [ht, hprev, ← hai', ← haim2]
      rfl
    apply ih (i + 1) (tau.set i t)
    · simpa using hlen
    · omega
    · omega
    · exact hab
    · intro j hj
      by_cases hji : j = i
      · subst hji
        rw [getD_set_self tau j t 0 (by omega), htv]
      · rw [getD_set_ne tau i j t 0 (fun hc => hji hc.symm)]
        exact hinv j (by omega)

/-- Loop invariant for the failure case: if the loop still has an
iteration whose index reaches past the end of `abross`, it raises. -/
theorem tauGo_err {α : Type} [Field α] (rhox abross : List α) :
    ∀ (steps i : ℕ) (tau : List α),
      1 ≤ steps → abross.length < i + steps →
      ∃ e, tauGo rhox abross steps i tau = Except.error e := by
  intro steps
  induction steps with
  | zero => intro i tau h; omega
  | succ s ih =>
    intro i tau _ hover
    by_cases hi : abross.length ≤ i
    · have hnone : abross[i]? = none := by
        simp [List.getElem?_eq_none_iff, hi]
      refine ⟨"IndexError: index out of bounds for axis 0", ?_⟩
      simp [tauGo, hnone]
    · push_neg at hi
      have hin : i < abross.length := hi
      have him : i - 1 < abross.length := by omega
      obtain ⟨ai, hai⟩ : ∃ a, abross[i]? = some a := ⟨abross[i], List.getElem?_eq_getElem hin⟩
      obtain ⟨aim, haim⟩ : ∃ a, abross[i - 1]? = some a :=
        ⟨abross[i - 1], List.getElem?_eq_getElem him⟩
      simp only [tauGo, hai, haim]
      exact ih (i + 1) _ (by omega) (by omega)

/-- On a rank-2 tensor, `statsFor` takes the scalar branch and agrees
with `fitParams`. -/
theorem statsFor_t2 (name : String) (data : List (List ℝ)) :
    statsFor name (Tensor.t2 data) =
      ⟨Bound.scalar (fitParams name data).min, Bound.scalar (fitParams name data).max,
        (fitParams name data).log_scale⟩ := by
  by_cases h : name ∈ log_params <;>
    simp [statsFor, fitParams, transform2, Tensor.emap, Tensor.dim, Tensor.flattenAll, h]

theorem foldl_min_le_init (a : ℝ) (l : List ℝ) : l.foldl min a ≤ a := by
  induction l generalizing a with
  | nil => simp
  | cons x t ih => exact le_trans (ih (min a x)) (min_le_left a x)

theorem foldl_min_le_mem {b : ℝ} (l : List ℝ) (a : ℝ) (h : b ∈ l) : l.foldl min a ≤ b := by
  induction l generalizing a with
  | nil => simp at h
  | cons x t ih =>
    rcases List.mem_cons.mp h with hx | ht
    · subst hx
      exact le_trans (foldl_min_le_init (min a b) t) (min_le_right a b)
    · exact ih (min a x) ht

theorem foldl_min_mem (l : List ℝ) (a : ℝ) : l.foldl min a ∈ a :: l := by
  induction l generalizing a with
  | nil => simp
  | cons x t ih =>
    have hm := ih (min a x)
    simp only [List.foldl_cons]
    rcases List.mem_cons.mp hm with he | ht
    · rw [he]
      rcases min_choice a x with hc | hc <;> rw [hc] <;> simp
    · exact List.mem_cons.mpr (Or.inr (List.mem_cons.mpr (Or.inr ht)))

theorem listMin_le_mem {b : ℝ} {l : List ℝ} (h : b ∈ l) : listMin l ≤ b := by
  cases l with
  | nil => simp at h
  | cons x t =>
    rcases List.mem_cons.mp h with hx | ht
    · subst hx
      exact foldl_min_le_init b t
    · exact foldl_min_le_mem t x ht

theorem listMin_mem {l : List ℝ} (h : l ≠ []) : listMin l ∈ l := by
  cases l with
  | nil => exact absurd rfl h
  | cons x t => exact foldl_min_mem t x

theorem foldl_max_ge_init (a : ℝ) (l : List ℝ) : a ≤ l.foldl max a := by
  induction l generalizing a with
  | nil => simp
  | cons x t ih => exact le_trans (le_max_left a x) (ih (max a x))

theorem foldl_max_ge_mem {b : ℝ} (l : List ℝ) (a : ℝ) (h : b ∈ l) : b ≤ l.foldl max a := by
  induction l generalizing a with
  | nil => simp at h
  | cons x t ih =>
    rcases List.mem_cons.mp h with hx | ht
    · subst hx
      exact le_trans (le_max_right a b) (foldl_max_ge_init (max a b) t)
    · exact ih (max a x) ht

theorem foldl_max_mem (l : List ℝ) (a : ℝ) : l.foldl max a ∈ a :: l := by
  induction l generalizing a with
  | nil => simp
  | cons x t ih =>
    have hm := ih (max a x)
    simp only [List.foldl_cons]
    rcases List.mem_cons.mp hm with he | ht
    · rw [he]
      rcases max_choice a x with hc | hc <;> rw [hc] <;> simp
    · exact List.mem_cons.mpr (Or.inr (List.mem_cons.mpr (Or.inr ht)))

theorem listMax_ge_mem {b : ℝ} {l : List ℝ} (h : b ∈ l) : b ≤ listMax l := by
  cases l with
  | nil => simp at h
  | cons x t =>
    rcases List.mem_cons.mp h with hx | ht
    · subst hx
      exact foldl_max_ge_init b t
    · exact foldl_max_ge_mem t x ht

theorem listMax_mem {l : List ℝ} (h : l ≠ []) : listMax l ∈ l := by
  cases l with
  | nil => exact absurd rfl h
  | cons x t => exact foldl_max_mem t x

theorem getD_replicate_zero {α : Type} [Field α] (n j : ℕ) :
    (List.replicate n (0 : α)).getD j 0 = 0 := by
  rw [List.getD_eq_getElem?_getD, List.getElem?_replicate]
  split <;> rfl

/-- Success of `calculate_tau` whenever `abross` is at least as long as
`rhox`, with the trapezoidal closed form for every cell. -/
theorem calculate_tau_ok_of_le {α : Type} [Field α] (rhox abross : List α)
    (hab : rhox.length ≤ abross.length) :
    ∃ res, calculate_tau rhox abross = Except.ok res ∧
      res.length = rhox.length ∧
      ∀ j, j < rhox.length → res.getD j 0 = tauSpec rhox abross j := by
  rcases Nat.eq_zero_or_pos rhox.length with h0 | hpos
  · refine ⟨[], ?_, by simp [h0], fun j hj => absurd hj (by omega)⟩
    simp [calculate_tau, h0, tauGo]
  · have hinv : ∀ j, j < 1 → (List.replicate rhox.length (0 : α)).getD j 0 =
        tauSpec rhox abross j := by
      intro j hj
      have hj0 : j = 0 := by omega
      subst hj0
      rw [getD_replicate_zero]
      rfl
    exact tauGo_ok rhox abross (rhox.length - 1) 1 (List.replicate rhox.length 0)
      (by simp) le_rfl (by omega) hab hinv

theorem getD_mem_of_lt {α : Type} [Inhabited α] (l : List α) (j : ℕ) (d : α)
    (h : j < l.length) : l.getD j d ∈ l := by
  rw [List.getD_eq_getElem?_getD, List.getElem?_eq_getElem h]
  simp

/-- C4: on equal-length inputs of length at least 1, `calculate_tau`
succeeds with a tau profile of the same length, `tau[0] = 0` and the
trapezoidal recurrence at every later index; in particular
rhox=[0,1,2], abross=[2,4,6] yields tau=[0,3,8]. -/
theorem calculate_tau_trapezoid :
    (∀ rhox abross : List ℚ, rhox.length = abross.length → 1 ≤ rhox.length →
      ∃ tau, calculate_tau rhox abross = Except.ok tau ∧ tau.length = rhox.length ∧
        tau.getD 0 0 = 0 ∧
        ∀ i, 1 ≤ i → i < tau.length →
          tau.getD i 0 = tau.getD (i - 1) 0 +
            (abross.getD i 0 + abross.getD (i - 1) 0) / 2 *
              (rhox.getD i 0 - rhox.getD (i - 1) 0)) ∧
    calculate_tau [(0 : ℚ), 1, 2] [2, 4, 6] = Except.ok [0, 3, 8] := by
  constructor
  · intro rhox abross hlen h1
    obtain ⟨res, hres, hrlen, hspec⟩ := calculate_tau_ok_of_le rhox abross (by omega)
    refine ⟨res, hres, hrlen, ?_, ?_⟩
    · rw [hspec 0 (by omega)]
      rfl
    · intro i hi1 hi2
      rw [hrlen] at hi2
      rw [hspec i hi2, hspec (i - 1) (by omega)]
      obtain ⟨k, hk⟩ : ∃ k, i = k + 1 := ⟨i - 1, by omega⟩
      subst hk
      simp only [Nat.add_sub_cancel]
      rfl
  · simp [calculate_tau, tauGo]
    norm_num

/-- Witness for C4 at rhox=[0,1,2], abross=[2,4,6]. -/
theorem calculate_tau_trapezoid_witness :
    ∃ tau, calculate_tau [(0 : ℚ), 1, 2] [2, 4, 6] = Except.ok tau ∧
      tau.length = ([(0 : ℚ), 1, 2]).length ∧ tau.getD 0 0 = 0 ∧
      ∀ i, 1 ≤ i → i < tau.length →
        tau.getD i 0 = tau.getD (i - 1) 0 +
          (([(2 : ℚ), 4, 6]).getD i 0 + ([(2 : ℚ), 4, 6]).getD (i - 1) 0) / 2 *
            (([(0 : ℚ), 1, 2]).getD i 0 - ([(0 : ℚ), 1, 2]).getD (i - 1) 0) :=
  calculate_tau_trapezoid.1 [0, 1, 2] [2, 4, 6] (by decide) (by decide)

/-- C5 counterexample: the inputs differ in length (rhox has 1 entry,
abross has 2) yet `calculate_tau` does not fail: the loop body never
reads past either array, so the extra abross entry is silently ignored. -/
theorem calculate_tau_mismatch_no_error :
    ([(0 : ℚ)]).length ≠ ([(1 : ℚ), 2]).length ∧
      calculate_tau [(0 : ℚ)] [1, 2] = Except.ok [0] :=
  ⟨by decide, rfl⟩

/-- C5 amended: `calculate_tau` performs no shape check at all; it fails
(with an index error, there is no dedicated shape-mismatch check) exactly
when `abross` is strictly shorter than `rhox` and `rhox` has at least two
entries.  A length mismatch with `abross` longer never fails, and inputs
with fewer than two rhox entries never fail. -/
theorem calculate_tau_error_iff (rhox abross : List ℚ) :
    (∃ e, calculate_tau rhox abross = Except.error e) ↔
      abross.length < rhox.length ∧ 2 ≤ rhox.length := by
  constructor
  · rintro ⟨e, he⟩
    by_contra hc
    rw [Decidable.not_and_iff_or_not] at hc
    rcases hc with hc | hc
    · push_neg at hc
      obtain ⟨res, hres, -, -⟩ := calculate_tau_ok_of_le rhox abross hc
      rw [hres] at he
      cases he
    · push_neg at hc
      have hsteps : rhox.length - 1 = 0 := by omega
      rw [calculate_tau, hsteps] at he
      cases he
  · rintro ⟨hlt, h2⟩
    exact tauGo_err rhox abross (rhox.length - 1) 1 (List.replicate rhox.length 0)
      (by omega) (by omega)

/-- Witness for C5 (amended) at rhox=[0,1], abross=[0]: shorter abross
with two rhox entries raises. -/
theorem calculate_tau_error_iff_witness :
    ∃ e, calculate_tau [(0 : ℚ), 1] [0] = Except.error e :=
  (calculate_tau_error_iff [0, 1] [0]).mpr (by decide)

/-- C10: with equal lengths, non-decreasing rhox and non-negative abross,
the tau profile starts at 0 and is non-decreasing. -/
theorem calculate_tau_monotone :
    ∀ rhox abross : List ℚ, rhox.length = abross.length →
      (∀ i, i + 1 < rhox.length → rhox.getD i 0 ≤ rhox.getD (i + 1) 0) →
      (∀ a ∈ abross, 0 ≤ a) →
      ∃ tau, calculate_tau rhox abross = Except.ok tau ∧ tau.getD 0 0 = 0 ∧
        ∀ i, i + 1 < tau.length → tau.getD i 0 ≤ tau.getD (i + 1) 0 := by
  intro rhox abross hlen hmono hnn
  obtain ⟨res, hres, hrlen, hspec⟩ := calculate_tau_ok_of_le rhox abross (by omega)
  refine ⟨res, hres, ?_, ?_⟩
  · rcases Nat.eq_zero_or_pos rhox.length with h0 | hpos
    · have hnil : res = [] := List.length_eq_zero.mp (by omega)
      simp [hnil]
    · rw [hspec 0 hpos]
      rfl
  · intro i hi
    rw [hrlen] at hi
    rw [hspec i (by omega), hspec (i + 1) hi]
    have ha1 : 0 ≤ abross.getD (i + 1) 0 :=
      hnn _ (getD_mem_of_lt abross (i + 1) 0 (by omega))
    have ha0 : 0 ≤ abross.getD i 0 :=
      hnn _ (getD_mem_of_lt abross i 0 (by omega))
    have hr : rhox.getD i 0 ≤ rhox.getD (i + 1) 0 := hmono i hi
    have hstep : 0 ≤ (abross.getD (i + 1) 0 + abross.getD i 0) / 2 *
        (rhox.getD (i + 1) 0 - rhox.getD i 0) :=
      mul_nonneg (div_nonneg (add_nonneg ha1 ha0) (by norm_num))
        (sub_nonneg.mpr hr)
    conv_rhs => rw [tauSpec]
    linarith

/-- Witness for C10 at rhox=[0,1], abross=[1,1]. -/
theorem calculate_tau_monotone_witness :
    ∃ tau, calculate_tau [(0 : ℚ), 1] [1, 1] = Except.ok tau ∧ tau.getD 0 0 = 0 ∧
      ∀ i, i + 1 < tau.length → tau.getD i 0 ≤ tau.getD (i + 1) 0 := by
  refine calculate_tau_monotone [0, 1] [1, 1] (by decide) ?_ ?_
  · intro i hi
    have h0 : i = 0 := by simp at hi; omega
    subst h0
    decide
  · intro a ha
    simp at ha
    subst ha
    norm_num

/-- C7: padding a non-empty sequence to a target length L of at least 1
always succeeds with exactly L elements, truncating when the input is
long enough and repeating the last element otherwise; in particular
pad_sequence [1,2,3] 5 = [1,2,3,3,3] and
pad_sequence [1,2,3,4,5,6] 4 = [1,2,3,4]. -/
theorem pad_sequence_spec :
    (∀ (values : List ℚ) (L : ℕ) (hne : values ≠ []), 1 ≤ L →
      ∃ res, pad_sequence values L = Except.ok res ∧ res.length = L ∧
        (L ≤ values.length → res = values.take L) ∧
        (values.length < L →
          res = values ++ List.replicate (L - values.length) (values.getLast hne))) ∧
    pad_sequence [(1 : ℚ), 2, 3] 5 = Except.ok [1, 2, 3, 3, 3] ∧
    pad_sequence [(1 : ℚ), 2, 3, 4, 5, 6] 4 = Except.ok [1, 2, 3, 4] := by
  refine ⟨?_, rfl, rfl⟩
  intro values L hne hL
  by_cases h : L ≤ values.length
  · refine ⟨values.take L, ?_, ?_, fun _ => rfl, fun hlt => absurd h (by omega)⟩
    · unfold pad_sequence
      rw [if_pos h]
    · rw [List.length_take]
      omega
  · push_neg at h
    have hlast : values.getLast? = some (values.getLast hne) :=
      List.getLast?_eq_getLast_of_ne_nil hne
    refine ⟨values ++ List.replicate (L - values.length) (values.getLast hne),
      ?_, ?_, fun hle => absurd hle (by omega), fun _ => rfl⟩
    · unfold pad_sequence
      rw [if_neg (by omega), hlast]
    · rw [List.length_append, List.length_replicate]
      omega

/-- Witness for C7 at values=[1,2,3], L=5. -/
theorem pad_sequence_spec_witness :
    ∃ res, pad_sequence [(1 : ℚ), 2, 3] 5 = Except.ok res ∧ res.length = 5 ∧
      (5 ≤ ([(1 : ℚ), 2, 3]).length → res = ([(1 : ℚ), 2, 3]).take 5) ∧
      (([(1 : ℚ), 2, 3]).length < 5 →
        res = [(1 : ℚ), 2, 3] ++
          List.replicate (5 - ([(1 : ℚ), 2, 3]).length)
            (([(1 : ℚ), 2, 3]).getLast (by decide))) :=
  pad_sequence_spec.1 [1, 2, 3] 5 (by decide) (by decide)

/-- C8: padding the empty sequence to any non-zero target length raises
(reading the last element of an empty list), and never returns a padded
result. -/
theorem pad_sequence_empty (L : ℕ) (hL : 1 ≤ L) :
    pad_sequence ([] : List ℚ) L = Except.error "IndexError: list index out of range" := by
  unfold pad_sequence
  rw [if_neg (by simp; omega)]
  rfl

/-- Witness for C8 at L=3. -/
theorem pad_sequence_empty_witness :
    1 ≤ 3 ∧ pad_sequence ([] : List ℚ) 3 =
      Except.error "IndexError: list index out of range" :=
  ⟨by decide, pad_sequence_empty 3 (by decide)⟩

/-- C1 counterexample: the linear sequence feature T stacked for two
models as the (2, 2) tensor [[1,10],[2,20]] receives a scalar minimum
(the global 1), not a per-depth-point vector: the per-dimension branch of
`setup_normalization` requires `dim() > 2`, and a stacked sequence
feature has rank exactly 2. -/
theorem stats_not_per_depth :
    ¬ ∃ xs : List ℝ,
      (statsFor "T" (Tensor.t2 [[1, 10], [2, 20]])).min = Bound.vec xs := by
  rintro ⟨xs, h⟩
  rw [statsFor_t2] at h
  cases h

/-- C1 (amended): every rank-2 feature tensor of the bundle — the (N,1)
scalar features and the (N, depth_points) sequence features alike —
receives single scalar min and max bounds, taken globally over all
entries of the log-transformed tensor (reduction across sample and depth
dimensions together); on non-empty data the bounds are attained entries
and bound every transformed entry. -/
theorem stats_scalar_global (name : String) (data : List (List ℝ))
    (hne : (transform2 name data).flatten ≠ []) :
    ∃ mn mx : ℝ,
      (statsFor name (Tensor.t2 data)).min = Bound.scalar mn ∧
      (statsFor name (Tensor.t2 data)).max = Bound.scalar mx ∧
      mn ∈ (transform2 name data).flatten ∧ mx ∈ (transform2 name data).flatten ∧
      ∀ x ∈ (transform2 name data).flatten, mn ≤ x ∧ x ≤ mx := by
  refine ⟨listMin (transform2 name data).flatten, listMax (transform2 name data).flatten,
    ?_, ?_, listMin_mem hne, listMax_mem hne, ?_⟩
  · rw [statsFor_t2]
    rfl
  · rw [statsFor_t2]
    rfl
  · intro x hx
    exact ⟨listMin_le_mem hx, listMax_ge_mem hx⟩

/-- Witness for C1 (amended) on the sequence tensor [[1,10],[2,20]] under
the linear feature name T. -/
theorem stats_scalar_global_witness :
    ∃ mn mx : ℝ,
      (statsFor "T" (Tensor.t2 [[1, 10], [2, 20]])).min = Bound.scalar mn ∧
      (statsFor "T" (Tensor.t2 [[1, 10], [2, 20]])).max = Bound.scalar mx ∧
      mn ∈ (transform2 "T" [[1, 10], [2, 20]]).flatten ∧
      mx ∈ (transform2 "T" [[1, 10], [2, 20]]).flatten ∧
      ∀ x ∈ (transform2 "T" [[1, 10], [2, 20]]).flatten, mn ≤ x ∧ x ≤ mx :=
  stats_scalar_global "T" [[1, 10], [2, 20]] (by simp [transform2, log_params])

theorem affine_roundtrip (mn mx t : ℝ) (h : mx - mn ≠ 0) :
    (2 * (t - mn) / (mx - mn) - 1 + 1) / 2 * (mx - mn) + mn = t := by
  field_simp
  ring

/-- C2 (amended): for parameters with max distinct from min,
denormalize after normalize recovers the value exactly in real
arithmetic — for linear features at every value, and for log-scaled
features at every value v with v + 1e-30 positive (the log input
domain); there the +1e-30 inside the log and the -1e-30 after
exponentiation cancel exactly. -/
theorem normalize_denormalize_roundtrip (p : SParams) (v : ℝ)
    (hne : p.max ≠ p.min) (hv : p.log_scale = true → 0 < v + 1e-30) :
    denormalizeVal p (normalizeVal p v) = v := by
  have hd : p.max - p.min ≠ 0 := sub_ne_zero.mpr hne
  cases hls : p.log_scale with
  | false =>
    simp only [denormalizeVal, normalizeVal, transformVal, hls, Bool.false_eq_true,
      if_false]
    exact affine_roundtrip p.min p.max v hd
  | true =>
    simp only [denormalizeVal, normalizeVal, transformVal, hls, if_true]
    rw [affine_roundtrip p.min p.max _ hd]
    rw [Real.rpow_logb (by norm_num) (by norm_num) (hv hls)]
    ring

/-- Witness for C2 (amended) on a log-scaled feature at v = 1. -/
theorem normalize_denormalize_roundtrip_witness :
    (({ min := 0, max := 1, log_scale := true } : SParams).max ≠
      ({ min := 0, max := 1, log_scale := true } : SParams).min) ∧
    denormalizeVal { min := 0, max := 1, log_scale := true }
      (normalizeVal { min := 0, max := 1, log_scale := true } 1) = 1 :=
  ⟨by norm_num,
    normalize_denormalize_roundtrip { min := 0, max := 1, log_scale := true } 1
      (by norm_num) (fun _ => by norm_num)⟩

/-- C2 counterexample: for a log-scaled feature with fitted bounds
min = 0, max = 1 (so max and min differ), the round trip at v = -1 does
not recover v: log10 is taken of a negative number (torch produces NaN;
in the real-number model the composition lands at 1 - 2e-30). -/
theorem roundtrip_fails_log_negative :
    (({ min := 0, max := 1, log_scale := true } : SParams).max ≠
      ({ min := 0, max := 1, log_scale := true } : SParams).min) ∧
    denormalizeVal { min := 0, max := 1, log_scale := true }
      (normalizeVal { min := 0, max := 1, log_scale := true } (-1)) ≠ -1 := by
  refine ⟨by norm_num, ?_⟩
  have hL : Real.logb 10 ((-1 : ℝ) + 1e-30) = Real.logb 10 (1 - 1e-30) := by
    rw [show ((-1 : ℝ) + 1e-30) = -(1 - 1e-30) by ring]
    rw [Real.logb, Real.logb, Real.log_neg_eq_log]
  have hval : denormalizeVal { min := 0, max := 1, log_scale := true }
      (normalizeVal { min := 0, max := 1, log_scale := true } (-1)) = 1 - 2e-30 := by
    simp only [denormalizeVal, normalizeVal, transformVal, if_true]
    rw [affine_roundtrip 0 1 _ (by norm_num)]
    rw [hL, Real.rpow_logb (by norm_num) (by norm_num) (by norm_num)]
    norm_num
  rw [hval]
  norm_num

/-- The transformed value of a fit entry is among the transformed
entries the statistics are computed from. -/
theorem transformVal_mem_transform2 (name : String) (data : List (List ℝ)) (v : ℝ)
    (hv : v ∈ data.flatten) :
    transformVal (log_params.contains name) v ∈ (transform2 name data).flatten := by
  by_cases h : log_params.contains name = true
  · simp only [transformVal, transform2, h, if_true]
    rw [← List.map_flatten]
    exact List.mem_map.mpr ⟨v, hv, rfl⟩
  · simp only [transformVal, transform2, h, Bool.false_eq_true, if_false]
    · exact hv

/-- C9: for a feature fitted on a rank-2 data tensor with distinct max
and min, normalize sends every entry that participated in the fit into
[-1, 1], a value whose transform attains the fitted minimum lands exactly
on -1, and one attaining the fitted maximum lands exactly on +1. -/
theorem normalize_bounds (name : String) (data : List (List ℝ)) (v : ℝ)
    (hv : v ∈ data.flatten)
    (hne : (fitParams name data).max ≠ (fitParams name data).min) :
    (-1 ≤ normalizeVal (fitParams name data) v ∧
      normalizeVal (fitParams name data) v ≤ 1) ∧
    (transformVal (fitParams name data).log_scale v = (fitParams name data).min →
      normalizeVal (fitParams name data) v = -1) ∧
    (transformVal (fitParams name data).log_scale v = (fitParams name data).max →
      normalizeVal (fitParams name data) v = 1) := by
  have hmem : transformVal (fitParams name data).log_scale v ∈
      (transform2 name data).flatten := transformVal_mem_transform2 name data v hv
  have hlo : (fitParams name data).min ≤ transformVal (fitParams name data).log_scale v :=
    listMin_le_mem hmem
  have hhi : transformVal (fitParams name data).log_scale v ≤ (fitParams name data).max :=
    listMax_ge_mem hmem
  have hlt : (fitParams name data).min < (fitParams name data).max :=
    lt_of_le_of_ne (le_trans hlo hhi) (Ne.symm hne)
  have hdpos : (0 : ℝ) < (fitParams name data).max - (fitParams name data).min := by
    linarith
  set T := transformVal (fitParams name data).log_scale v with hT
  set mn := (fitParams name data).min
  set mx := (fitParams name data).max
  refine ⟨⟨?_, ?_⟩, ?_, ?_⟩
  · have h2 : (0 : ℝ) ≤ 2 * (T - mn) / (mx - mn) :=
      div_nonneg (by linarith) (le_of_lt hdpos)
    simp only [normalizeVal, ← hT]
    linarith
  · have h2 : 2 * (T - mn) / (mx - mn) ≤ 2 := by
      rw [div_le_iff₀ hdpos]
      linarith
    simp only [normalizeVal, ← hT]
    linarith
  · intro hmin
    simp only [normalizeVal, ← hT, hmin]
    field_simp
  · intro hmax
    simp only [normalizeVal, ← hT, hmax]
    field_simp
    norm_num

/-- Witness for C9 on the linear feature T fitted on [[1],[3]] at the
boundary value v = 1. -/
theorem normalize_bounds_witness :
    (-1 ≤ normalizeVal (fitParams "T" [[1], [3]]) 1 ∧
      normalizeVal (fitParams "T" [[1], [3]]) 1 ≤ 1) ∧
    (transformVal (fitParams "T" [[1], [3]]).log_scale 1 =
        (fitParams "T" [[1], [3]]).min →
      normalizeVal (fitParams "T" [[1], [3]]) 1 = -1) ∧
    (transformVal (fitParams "T" [[1], [3]]).log_scale 1 =
        (fitParams "T" [[1], [3]]).max →
      normalizeVal (fitParams "T" [[1], [3]]) 1 = 1) :=
  normalize_bounds "T" [[1], [3]] 1 (by simp)
    (by simp [fitParams, transform2, log_params, listMin, listMax])

/-- C3 (code evaluation): on every tensor whose channel dimension has
size 6 — the shape the network and `__getitem__` produce —
`inverse_transform_outputs` raises an IndexError instead of returning a
mapping: its column list has seven names (TAU included), so the loop
asks for channel index 6 of a 6-channel tensor. -/
theorem inverse_transform_outputs_fails (np : ParamsBundle)
    (outputs : List (List (List ℝ)))
    (hc : ((outputs.headD []).headD []).length = 6) :
    inverse_transform_outputs np outputs =
      Except.error "IndexError: index out of bounds for dimension 2" := by
  simp only [inverse_transform_outputs]
  rw [hc]
  simp [outputColumns, List.enum, List.enumFrom, itoGo, sliceChannel]

/-- Witness for C3 on the (1, 1, 6) zero tensor. -/
theorem inverse_transform_outputs_fails_witness :
    ((([[[(0 : ℝ), 0, 0, 0, 0, 0]]].headD []).headD []).length = 6) ∧
    inverse_transform_outputs demoBundleParams [[[(0 : ℝ), 0, 0, 0, 0, 0]]] =
      Except.error "IndexError: index out of bounds for dimension 2" :=
  ⟨rfl, inverse_transform_outputs_fails demoBundleParams [[[(0 : ℝ), 0, 0, 0, 0, 0]]] rfl⟩

theorem pad_sequence_ok_length {α : Type} {values : List α} {L : ℕ} {res : List α}
    (h : pad_sequence values L = Except.ok res) : res.length = L := by
  unfold pad_sequence at h
  by_cases hc : L ≤ values.length
  · rw [if_pos hc] at h
    injection h with h'
    subst h'
    rw [List.length_take]
    omega
  · rw [if_neg hc] at h
    cases hl : values.getLast? with
    | none =>
      rw [hl] at h
      cases h
    | some x =>
      rw [hl] at h
      injection h with h'
      subst h'
      rw [List.length_append, List.length_replicate]
      omega

theorem mapE_length {α β : Type} (f : α → Except String β) :
    ∀ {l : List α} {res : List β}, mapE f l = Except.ok res → res.length = l.length := by
  intro l
  induction l with
  | nil =>
    intro res h
    simp only [mapE] at h
    injection h with h'
    subst h'
    rfl
  | cons a t ih =>
    intro res h
    simp only [mapE] at h
    cases hfa : f a with
    | error e =>
      rw [hfa] at h
      cases h
    | ok b =>
      rw [hfa] at h
      cases hmt : mapE f t with
      | error e =>
        rw [hmt] at h
        cases h
      | ok bs =>
        rw [hmt] at h
        injection h with h'
        subst h'
        simp [ih hmt]

theorem mapE_get {α β : Type} (f : α → Except String β) :
    ∀ {l : List α} {res : List β}, mapE f l = Except.ok res →
      ∀ i, i < l.length →
        ∃ a b, l[i]? = some a ∧ res[i]? = some b ∧ f a = Except.ok b := by
  intro l
  induction l with
  | nil =>
    intro res h i hi
    simp at hi
  | cons x t ih =>
    intro res h i hi
    simp only [mapE] at h
    cases hfa : f x with
    | error e =>
      rw [hfa] at h
      cases h
    | ok b =>
      rw [hfa] at h
      cases hmt : mapE f t with
      | error e =>
        rw [hmt] at h
        cases h
      | ok bs =>
        rw [hmt] at h
        injection h with h'
        subst h'
        cases i with
        | zero => exact ⟨x, b, by simp, by simp, hfa⟩
        | succ n =>
          obtain ⟨a, b', ha, hb, hf⟩ := ih hmt n (by simpa using hi)
          exact ⟨a, b', by simpa using ha, by simpa using hb, hf⟩

theorem processOne_ok {maxD : ℕ} {mt : AtmosphereModel × List ℝ} {pr : Processed}
    (h : processOne maxD mt = Except.ok pr) :
    pr.RHOX.length = maxD ∧ pr.T.length = maxD ∧ pr.P.length = maxD ∧
    pr.XNE.length = maxD ∧ pr.ABROSS.length = maxD ∧ pr.ACCRAD.length = maxD ∧
    pr.TAU.length = maxD := by
  simp only [processOne, bind, Except.bind, pure, Except.pure] at h
  cases h1 : pad_sequence mt.1.RHOX maxD with
  | error e => rw [h1] at h; cases h
  | ok rhox =>
  rw [h1] at h
  cases h2 : pad_sequence mt.1.T maxD with
  | error e => rw [h2] at h; cases h
  | ok t =>
  rw [h2] at h
  cases h3 : pad_sequence mt.1.P maxD with
  | error e => rw [h3] at h; cases h
  | ok p =>
  rw [h3] at h
  cases h4 : pad_sequence mt.1.XNE maxD with
  | error e => rw [h4] at h; cases h
  | ok xne =>
  rw [h4] at h
  cases h5 : pad_sequence mt.1.ABROSS maxD with
  | error e => rw [h5] at h; cases h
  | ok abross =>
  rw [h5] at h
  cases h6 : pad_sequence mt.1.ACCRAD maxD with
  | error e => rw [h6] at h; cases h
  | ok accrad =>
  rw [h6] at h
  cases h7 : pad_sequence mt.2 maxD with
  | error e => rw [h7] at h; cases h
  | ok tau =>
  rw [h7] at h
  injection h with h'
  subst h'
  exact ⟨pad_sequence_ok_length h1, pad_sequence_ok_length h2, pad_sequence_ok_length h3,
    pad_sequence_ok_length h4, pad_sequence_ok_length h5, pad_sequence_ok_length h6,
    pad_sequence_ok_length h7⟩

theorem getD_map_eq {α β : Type} (l : List α) (g : α → β) (i : ℕ) (a : α) (dflt : β)
    (h : l[i]? = some a) : (l.map g).getD i dflt = g a := by
  rw [List.getD_eq_getElem?_getD, List.getElem?_map, h]
  rfl

theorem getElem?_eq_some_getD {α : Type} (l : List α) (j : ℕ) (dflt : α)
    (h : j < l.length) : l[j]? = some (l.getD j dflt) := by
  rw [List.getElem?_eq_getElem h, List.getD_eq_getElem?_getD, List.getElem?_eq_getElem h]
  rfl

theorem assembled_len (ps : List Processed) : datasetLen (assembled ps) = ps.length := by
  simp [assembled, datasetLen, normalize, buildBundle]

/-- Inversion of a successful `construct`: some processed model list
exists, and the dataset is exactly its assembly. -/
theorem construct_ok {models : List AtmosphereModel} {maxD : ℕ} {d : Dataset}
    (h : construct models maxD = Except.ok d) :
    ∃ ps : List Processed,
      mapE (processOne maxD) (loadedModels models) = Except.ok ps ∧ d = assembled ps := by
  simp only [construct] at h
  by_cases hemp : (loadedModels models).isEmpty
  · rw [if_pos hemp] at h
    cases h
  · rw [if_neg hemp] at h
    cases hm : mapE (processOne maxD) (loadedModels models) with
    | error e =>
      rw [hm] at h
      cases h
    | ok ps =>
      rw [hm] at h
      injection h with h'
      exact ⟨ps, rfl, h'.symm⟩

/-- C6: for every dataset successfully built by `construct` and every
valid model index i, `__getitem__` yields input features with
max_depth_points rows, each row exactly [teff, gravity, feh, afe, tau_j]
— the four normalized stellar scalars identical in every depth row, the
normalized tau varying with the row — and output features with
max_depth_points rows, each row the six normalized profiles in the order
[RHOX, T, P, XNE, ABROSS, ACCRAD]; the dataset fields are exactly the
normalized original tensors. -/
theorem getItem_shapes {models : List AtmosphereModel} {maxD : ℕ} {d : Dataset} {i : ℕ}
    (h : construct models maxD = Except.ok d) (hi : i < datasetLen d) :
    (getItem d i).1.length = maxD ∧
    (∀ j, j < maxD → (getItem d i).1.getD j [] =
      [(d.teff.getD i []).getD 0 0, (d.gravity.getD i []).getD 0 0,
        (d.feh.getD i []).getD 0 0, (d.afe.getD i []).getD 0 0,
        (d.TAU.getD i []).getD j 0]) ∧
    (getItem d i).2.length = maxD ∧
    (∀ j, j < maxD → (getItem d i).2.getD j [] =
      [(d.RHOX.getD i []).getD j 0, (d.T.getD i []).getD j 0,
        (d.P.getD i []).getD j 0, (d.XNE.getD i []).getD j 0,
        (d.ABROSS.getD i []).getD j 0, (d.ACCRAD.getD i []).getD j 0]) ∧
    d.teff = normalize d.norm_params.teff d.original.teff ∧
    d.gravity = normalize d.norm_params.gravity d.original.gravity ∧
    d.feh = normalize d.norm_params.feh d.original.feh ∧
    d.afe = normalize d.norm_params.afe d.original.afe ∧
    d.TAU = normalize d.norm_params.TAU d.original.TAU ∧
    d.RHOX = normalize d.norm_params.RHOX d.original.RHOX ∧
    d.T = normalize d.norm_params.T d.original.T ∧
    d.P = normalize d.norm_params.P d.original.P ∧
    d.XNE = normalize d.norm_params.XNE d.original.XNE ∧
    d.ABROSS = normalize d.norm_params.ABROSS d.original.ABROSS ∧
    d.ACCRAD = normalize d.norm_params.ACCRAD d.original.ACCRAD := by
  obtain ⟨ps, hmap, rfl⟩ := construct_ok h
  rw [assembled_len] at hi
  obtain ⟨mt, pr, hmt, hpr, hproc⟩ := mapE_get (processOne maxD) hmap i
    (by rw [← mapE_length (processOne maxD) hmap]; exact hi)
  obtain ⟨hR, hT, hP, hX, hA, hC, hTau⟩ := processOne_ok hproc
  have eteff : (assembled ps).teff.getD i [] =
      [normalizeVal (setup_normalization (buildBundle ps)).teff pr.teff] := by
    show (normalize (setup_normalization (buildBundle ps)).teff
      (ps.map (fun m => [m.teff]))).getD i [] = _
    unfold normalize
    rw [List.map_map]
    exact getD_map_eq ps _ i pr [] hpr
  have egrav : (assembled ps).gravity.getD i [] =
      [normalizeVal (setup_normalization (buildBundle ps)).gravity pr.gravity] := by
    show (normalize (setup_normalization (buildBundle ps)).gravity
      (ps.map (fun m => [m.gravity]))).getD i [] = _
    unfold normalize
    rw [List.map_map]
    exact getD_map_eq ps _ i pr [] hpr
  have efeh : (assembled ps).feh.getD i [] =
      [normalizeVal (setup_normalization (buildBundle ps)).feh pr.feh] := by
    show (normalize (setup_normalization (buildBundle ps)).feh
      (ps.map (fun m => [m.feh]))).getD i [] = _
    unfold normalize
    rw [List.map_map]
    exact getD_map_eq ps _ i pr [] hpr
  have eafe : (assembled ps).afe.getD i [] =
      [normalizeVal (setup_normalization (buildBundle ps)).afe pr.afe] := by
    show (normalize (setup_normalization (buildBundle ps)).afe
      (ps.map (fun m => [m.afe]))).getD i [] = _
    unfold normalize
    rw [List.map_map]
    exact getD_map_eq ps _ i pr [] hpr
  have eTAU : (assembled ps).TAU.getD i [] =
      pr.TAU.map (normalizeVal (setup_normalization (buildBundle ps)).TAU) := by
    show (normalize (setup_normalization (buildBundle ps)).TAU
      (ps.map (fun m => m.TAU))).getD i [] = _
    unfold normalize
    rw [List.map_map]
    exact getD_map_eq ps _ i pr [] hpr
  have eRHOX : (assembled ps).RHOX.getD i [] =
      pr.RHOX.map (normalizeVal (setup_normalization (buildBundle ps)).RHOX) := by
    show (normalize (setup_normalization (buildBundle ps)).RHOX
      (ps.map (fun m => m.RHOX))).getD i [] = _
    unfold normalize
    rw [List.map_map]
    exact getD_map_eq ps _ i pr [] hpr
  have lTAU : ((assembled ps).TAU.getD i []).length = maxD := by
    rw [eTAU, List.length_map, hTau]
  have lRHOX : ((assembled ps).RHOX.getD i []).length = maxD := by
    rw [eRHOX, List.length_map, hR]
  have hfst : (getItem (assembled ps) i).1 =
      ((assembled ps).TAU.getD i []).map (fun tv =>
        ((assembled ps).teff.getD i [] ++ (assembled ps).gravity.getD i [] ++
          (assembled ps).feh.getD i [] ++ (assembled ps).afe.getD i []) ++ [tv]) := rfl
  have hsnd : (getItem (assembled ps) i).2 =
      (List.range ((assembled ps).RHOX.getD i []).length).map (fun j =>
        [((assembled ps).RHOX.getD i []).getD j 0,
          ((assembled ps).T.getD i []).getD j 0,
          ((assembled ps).P.getD i []).getD j 0,
          ((assembled ps).XNE.getD i []).getD j 0,
          ((assembled ps).ABROSS.getD i []).getD j 0,
          ((assembled ps).ACCRAD.getD i []).getD j 0]) := rfl
  refine ⟨?_, ?_, ?_, ?_, rfl, rfl, rfl, rfl, rfl, rfl, rfl, rfl, rfl, rfl, rfl⟩
  · rw [hfst, List.length_map, lTAU]
  · intro j hj
    rw [hfst, getD_map_eq _ _ j (((assembled ps).TAU.getD i []).getD j 0) []
      (getElem?_eq_some_getD _ j 0 (by rw [lTAU]; exact hj))]
    rw [eteff, egrav, efeh, eafe]
    simp
  · rw [hsnd, List.length_map, List.length_range, lRHOX]
  · intro j hj
    rw [hsnd, getD_map_eq _ _ j j [] (List.getElem?_range (by rw [lRHOX]; exact hj))]

/-- Witness for C6: the pipeline constructed from one concrete model with
max_depth_points = 2, sampled at index 0. -/
theorem getItem_shapes_witness :
    ∃ d, construct [demoModel] 2 = Except.ok d ∧ 0 < datasetLen d ∧
      ((getItem d 0).1.length = 2 ∧
      (∀ j, j < 2 → (getItem d 0).1.getD j [] =
        [(d.teff.getD 0 []).getD 0 0, (d.gravity.getD 0 []).getD 0 0,
          (d.feh.getD 0 []).getD 0 0, (d.afe.getD 0 []).getD 0 0,
          (d.TAU.getD 0 []).getD j 0]) ∧
      (getItem d 0).2.length = 2 ∧
      (∀ j, j < 2 → (getItem d 0).2.getD j [] =
        [(d.RHOX.getD 0 []).getD j 0, (d.T.getD 0 []).getD j 0,
          (d.P.getD 0 []).getD j 0, (d.XNE.getD 0 []).getD j 0,
          (d.ABROSS.getD 0 []).getD j 0, (d.ACCRAD.getD 0 []).getD j 0]) ∧
      d.teff = normalize d.norm_params.teff d.original.teff ∧
      d.gravity = normalize d.norm_params.gravity d.original.gravity ∧
      d.feh = normalize d.norm_params.feh d.original.feh ∧
      d.afe = normalize d.norm_params.afe d.original.afe ∧
      d.TAU = normalize d.norm_params.TAU d.original.TAU ∧
      d.RHOX = normalize d.norm_params.RHOX d.original.RHOX ∧
      d.T = normalize d.norm_params.T d.original.T ∧
      d.P = normalize d.norm_params.P d.original.P ∧
      d.XNE = normalize d.norm_params.XNE d.original.XNE ∧
      d.ABROSS = normalize d.norm_params.ABROSS d.original.ABROSS ∧
      d.ACCRAD = normalize d.norm_params.ACCRAD d.original.ACCRAD) := by
  refine ⟨_, rfl, ?_, ?_⟩
  · decide
  · exact @getItem_shapes [demoModel] 2 _ 0 rfl (by decide)

end Kurucz

